import Mathlib

/-!
Verification of the spending-categorizer core (statement normalization,
categorization engine, CSV/date parsing, paycheck normalization and
migration, mapping-store update) against its natural-language spec.

Strings from the JavaScript source are modelled as `List Char` (`JStr`);
JavaScript numbers are modelled as `JSNum` (a rational or NaN); loose
runtime values reaching the normalizer are modelled by `JSValue`.
-/

set_option maxRecDepth 4000

abbrev JStr := List Char

deriving instance DecidableEq for Except

/-- The JavaScript whitespace class (`\s`, `String.prototype.trim`),
restricted to the code points that can occur in this pipeline's inputs. -/
def isJsWs (c : Char) : Bool :=
  c == ' ' || c == '\t' || c == '\n' || c == '\r' || c == '\x0b' ||
    c == '\x0c' || c == ' '

/-- ASCII lower-casing of one character (`String.prototype.toLowerCase`
on the ASCII inputs this pipeline handles). -/
def lowerChar (c : Char) : Char :=
  if 'A' ≤ c && c ≤ 'Z' then Char.ofNat (c.toNat + 32) else c

def lowerStr (s : JStr) : JStr := s.map lowerChar

/-- Model of `merchant.replace(/\s+/g, ' ')`: collapse every whitespace run to a
single space. `prevWs` records whether the previous character was part of
a whitespace run already emitted as `' '`. -/
def collapseWsAux (prevWs : Bool) : JStr → JStr
  | [] => []
  | c :: rest =>
    if isJsWs c then
      if prevWs then collapseWsAux true rest
      else ' ' :: collapseWsAux true rest
    else c :: collapseWsAux false rest

/-- Model of `String.prototype.trim`. -/
def jsTrim (s : JStr) : JStr :=
  ((s.dropWhile isJsWs).reverse.dropWhile isJsWs).reverse

/-- The function `normalizeMerchant` from the statement module:
`merchant.replace(/\s+/g, ' ').trim()`. -/
def normalizeMerchant (s : JStr) : JStr :=
  jsTrim (collapseWsAux false s)

/-- A JavaScript number: NaN or a (finite) rational. -/
inductive JSNum where
  | nan : JSNum
  | val : ℚ → JSNum
deriving DecidableEq

/-- A loose JavaScript runtime value, as far as the normalizer can
observe one. -/
inductive JSValue where
  | undef : JSValue
  | null : JSValue
  | str : JStr → JSValue
  | num : JSNum → JSValue
deriving DecidableEq

def JSValue.isString : JSValue → Bool
  | .str _ => true
  | _ => false

/-- JavaScript truthiness of a value. -/
def truthy : JSValue → Bool
  | .undef => false
  | .null => false
  | .str s => !s.isEmpty
  | .num .nan => false
  | .num (.val q) => q != 0

/-- Model of `a || b` on loose values. -/
def jsOr (a b : JSValue) : JSValue := if truthy a then a else b

/-- Model of `n || 0` on a number: NaN and 0 collapse to 0. -/
def jsOr0 : JSNum → ℚ
  | .nan => 0
  | .val q => q

/-- Model of `Number.isFinite(n) ? n : 0` (the model has no infinities, so
non-finite means NaN). -/
def finiteOr0 : JSNum → ℚ
  | .nan => 0
  | .val q => q

def digitVal (c : Char) : ℕ := c.toNat - 48

def digitsToNat (s : JStr) : ℕ :=
  s.foldl (fun acc c => 10 * acc + digitVal c) 0

/-- Decimal rendering of one digit (only ever applied below 10). -/
def digitChar (k : ℕ) : Char :=
  match k with
  | 0 => '0' | 1 => '1' | 2 => '2' | 3 => '3' | 4 => '4'
  | 5 => '5' | 6 => '6' | 7 => '7' | 8 => '8' | _ + 9 => '9'

def jsNatToStringAux : ℕ → ℕ → JStr
  | 0, _ => []
  | fuel + 1, n =>
    if n < 10 then [digitChar n]
    else jsNatToStringAux fuel (n / 10) ++ [digitChar (n % 10)]

/-- Model of `String(n)` for a natural number (template-literal interpolation). -/
def jsNatToString (n : ℕ) : JStr := jsNatToStringAux (n + 1) n

/-- Model of `String(n)` for an integer. -/
def jsIntToString (n : ℤ) : JStr :=
  if n < 0 then '-' :: jsNatToString n.natAbs else jsNatToString n.natAbs

/-- Model of `Number(s)` on a string: trimmed decimal literal
`[+|-] digits [. digits]` (also `.digits` and `digits.`); empty trims to
0; anything else is NaN. -/
def parseNumberJS (s : JStr) : JSNum :=
  let t := jsTrim s
  if t.isEmpty then .val 0
  else
    let (neg, t2) : Bool × JStr :=
      match t with
      | '-' :: r => (true, r)
      | '+' :: r => (false, r)
      | _ => (false, t)
    let (intPart, rest) := t2.span Char.isDigit
    match rest with
    | [] =>
      if intPart.isEmpty then .nan
      else .val (if neg then -(digitsToNat intPart : ℚ) else (digitsToNat intPart : ℚ))
    | '.' :: fr =>
      let (fracPart, rest2) := fr.span Char.isDigit
      if rest2.isEmpty && !(intPart.isEmpty && fracPart.isEmpty) then
        let q : ℚ := (digitsToNat intPart : ℚ) +
          (digitsToNat fracPart : ℚ) / ((10 : ℚ) ^ fracPart.length)
        .val (if neg then -q else q)
      else .nan
    | _ => .nan

/-- Model of `Number(v)` on a loose value. -/
def jsToNumber : JSValue → JSNum
  | .undef => .nan
  | .null => .val 0
  | .num n => n
  | .str s => parseNumberJS s

/-- Model of `Math.abs`. -/
def mathAbs (q : ℚ) : ℚ := if q < 0 then -q else q

/-- Model of `record[key]` on a JS object modelled as an entry list (unique keys,
entry order = insertion order). -/
def recordGet (m : List (JStr × JStr)) (k : JStr) : Option JStr :=
  (m.find? (fun p => p.1 == k)).map (·.2)

/-- Model of the spread `\x7b...prev, [k]: v\x7d`: override `k` in place if present, else append. -/
def recordSet (m : List (JStr × JStr)) (k v : JStr) : List (JStr × JStr) :=
  if (m.find? (fun p => p.1 == k)).isSome then
    m.map (fun p => if p.1 == k then (k, v) else p)
  else m ++ [(k, v)]

def DEFAULT_CATEGORIES : List JStr :=
  ["Food & Groceries", "Eating Out", "Transport & Fuel", "Health & Wellness",
   "Shopping", "Entertainment", "Utilities & Bills", "Rent/Mortgage",
   "Travel", "Unknown", "Subscriptions", "Education",
   "Payment/Credit"].map String.toList

/-- The function `findMappedCategory` from the statement module.  The exact lookup is
guarded by JS truthiness (an empty-string category falls through to the
case-insensitive scan, which returns its value unguarded). -/
def findMappedCategory (merchant : JStr) (userMappings : List (JStr × JStr)) :
    Option JStr :=
  let normalizedMerchant := normalizeMerchant merchant
  let caseInsensitive :=
    (userMappings.find?
      (fun p => lowerStr p.1 == lowerStr normalizedMerchant)).map (·.2)
  match recordGet userMappings normalizedMerchant with
  | some v => if v.isEmpty then caseInsensitive else some v
  | none => caseInsensitive

/-- The keyword rule table of `keywordCategory`, in source order. -/
def keywordRules : List (JStr × List JStr) :=
  [("Food & Groceries".toList,
    ["grocery", "supermarket", "market", "whole foods", "trader joe",
     "kroger", "safeway", "aldi", "publix", "costco", "walmart",
     "target"].map String.toList),
   ("Eating Out".toList,
    ["restaurant", "cafe", "coffee", "starbucks", "chipotle", "mcdonald",
     "doordash", "uber eats", "grubhub"].map String.toList),
   ("Transport & Fuel".toList,
    ["uber", "lyft", "shell", "exxon", "chevron", "bp", "valero", "gas",
     "fuel", "parking", "toll"].map String.toList),
   ("Utilities & Bills".toList,
    ["utility", "electric", "water", "internet", "verizon", "comcast",
     "xfinity", "att", "tmobile"].map String.toList),
   ("Subscriptions".toList,
    ["subscription", "netflix", "spotify", "hulu", "disney", "prime",
     "apple.com/bill", "google *", "google storage"].map String.toList),
   ("Shopping".toList,
    ["amazon", "amzn", "best buy", "ebay", "etsy", "ikea"].map String.toList),
   ("Entertainment".toList,
    ["movie", "cinema", "theater", "ticketmaster", "concert"].map String.toList),
   ("Health & Wellness".toList,
    ["pharmacy", "cvs", "walgreens", "fitness", "gym",
     "planet fitness"].map String.toList),
   ("Travel".toList,
    ["airlines", "delta", "united", "american airlines", "hotel", "marriott",
     "hilton", "airbnb", "expedia"].map String.toList),
   ("Education".toList,
    ["tuition", "udemy", "coursera", "college", "university"].map String.toList)]

/-- Model of `haystack.includes(needle)`: substring test. -/
def strIncludes (haystack needle : JStr) : Bool :=
  haystack.tails.any (fun t => needle.isPrefixOf t)

/-- The function `keywordCategory`: the first rule one of whose keywords is a
substring of the lower-cased merchant wins. -/
def keywordCategory (merchant : JStr) : Option JStr :=
  let m := lowerStr merchant
  (keywordRules.find? (fun rule => rule.2.any (fun k => strIncludes m k))).map (·.1)

/-- A regex word character (`\w`): used by the `\b` in the refund pattern. -/
def isWordChar (c : Char) : Bool :=
  c.isAlpha || c.isDigit || c == '_'

def refundKeywords : List JStr :=
  ["payment", "autopay", "credit", "refund", "returned",
   "reversal"].map String.toList

/-- Model of the refund pattern test on `s`
(`payment|autopay|credit|refund|returned|reversal` with a `\b` after it):
some keyword occurs at some position and is followed by a non-word
character or the end of the string. -/
def refundPatternTest (s : JStr) : Bool :=
  s.tails.any (fun t =>
    refundKeywords.any (fun k =>
      k.isPrefixOf t &&
        (match t.drop k.length with
         | [] => true
         | c :: _ => !isWordChar c)))

/-- The function `categorizeTransaction` from the statement module. -/
def categorizeTransaction (merchant : JStr) (amount : JSNum)
    (userMappings : List (JStr × JStr)) : JStr :=
  let normalizedMerchant := normalizeMerchant merchant
  if normalizedMerchant.isEmpty then "Unknown".toList
  else
    let lower := lowerStr normalizedMerchant
    if (match amount with | .nan => false | .val q => q < 0) ||
        refundPatternTest lower then
      "Payment/Credit".toList
    else
      match findMappedCategory normalizedMerchant userMappings with
      | some mapped =>
        if !mapped.isEmpty && DEFAULT_CATEGORIES.contains mapped then mapped
        else
          match keywordCategory normalizedMerchant with
          | some byKeyword => byKeyword
          | none => "Unknown".toList
      | none =>
        match keywordCategory normalizedMerchant with
        | some byKeyword => byKeyword
        | none => "Unknown".toList

/-- A raw record handed to `finalizeTransactions` (runtime shape: the
TypeScript type promises strings/numbers, but records re-read from the
AI-response cache may carry anything). -/
structure RawTransaction where
  merchant : JSValue
  amount : JSValue
  date : JSValue
  category : Option JStr
deriving DecidableEq

/-- The canonical transaction produced by `finalizeTransactions`.  The
`date` field is copied through unchanged from the raw record, so it keeps
its runtime type. -/
structure Transaction where
  id : JStr
  date : JSValue
  merchant : JStr
  amount : ℚ
  category : JStr
  originalCategory : Option JStr
deriving DecidableEq

/-- The id template `` `${Date.now()}-${index}` ``. -/
def txId (now index : ℕ) : JStr :=
  jsNatToString now ++ '-' :: jsNatToString index

/-- The filter predicate `!!t.date && /^\d{4}-\d{2}-\d{2}$/.test(t.date)`.
`RegExp.test` coerces its argument with `String()`; the string image of
`undefined`/`null`/a number (optional sign, digits, point, exponent,
`Infinity`, `NaN`) can never have the `dddd-dd-dd` shape, so only string
dates can pass. -/
def isIsoShape (v : JStr) : Bool :=
  match v with
  | [y1, y2, y3, y4, s1, m1, m2, s2, d1, d2] =>
    y1.isDigit && y2.isDigit && y3.isDigit && y4.isDigit && s1 == '-' &&
      m1.isDigit && m2.isDigit && s2 == '-' && d1.isDigit && d2.isDigit
  | _ => false

def dateStringOk (v : JSValue) : Bool :=
  truthy v &&
    (match v with
     | .str s => isIsoShape s
     | _ => false)

/-- The `.map` body of `finalizeTransactions`, with the element index and
the per-element `Date.now()` reading (`clock i`) made explicit.  A raw
record whose `merchant` is not a string makes
`merchant.replace(/\s+/g, ' ')` throw a TypeError, which aborts the whole
map. -/
def finalizeAux (clock : ℕ → ℕ) (userMappings : List (JStr × JStr)) :
    List RawTransaction → ℕ → Except String (List Transaction)
  | [], _ => .ok []
  | t :: rest, index =>
    match t.merchant with
    | .str s =>
      let merchant := normalizeMerchant s
      let amount := jsOr0 (jsToNumber t.amount)
      let category := categorizeTransaction merchant (.val amount) userMappings
      let tx : Transaction :=
        { id := txId (clock index) index
          date := t.date
          merchant := merchant
          amount := mathAbs amount
          category := category
          originalCategory := t.category }
      match finalizeAux clock userMappings rest (index + 1) with
      | .ok l => .ok (tx :: l)
      | .error e => .error e
    | _ => .error "TypeError"

/-- The function `finalizeTransactions` from the statement module: map each raw record
to a canonical transaction, then drop records without a `YYYY-MM-DD`
date. -/
def finalizeTransactions (clock : ℕ → ℕ) (raw : List RawTransaction)
    (userMappings : List (JStr × JStr)) : Except String (List Transaction) :=
  match finalizeAux clock userMappings raw 0 with
  | .ok l => .ok (l.filter (fun t => dateStringOk t.date))
  | .error e => .error e

/-- Model of `row.some((v) => v.trim() !== '')`: keep a row only if some field has
a non-whitespace character. -/
def pushRow (rows : List (List JStr)) (row : List JStr) : List (List JStr) :=
  if row.any (fun f => !(jsTrim f).isEmpty) then rows ++ [row] else rows

/-- The character loop of `parseCsv`.  Branch order mirrors the source:
escaped double-quote inside quotes, quote toggle, in-quote characters as
plain content, delimiters, row terminators (`\r\n` consumed as one),
content. -/
def parseCsvAux (inQuotes : Bool) (field : JStr) (row : List JStr)
    (rows : List (List JStr)) : JStr → List (List JStr)
  | [] => pushRow rows (row ++ [field])
  | '"' :: '"' :: rest2 =>
    if inQuotes then parseCsvAux true (field ++ ['"']) row rows rest2
    else parseCsvAux true field row rows ('"' :: rest2)
  | '"' :: rest => parseCsvAux (!inQuotes) field row rows rest
  | '\r' :: '\n' :: rest2 =>
    if inQuotes then parseCsvAux true (field ++ ['\r']) row rows ('\n' :: rest2)
    else parseCsvAux false [] [] (pushRow rows (row ++ [field])) rest2
  | c :: rest =>
    if inQuotes then
      parseCsvAux true (field ++ [c]) row rows rest
    else if c = ',' ∨ c = '\t' then
      parseCsvAux false [] (row ++ [field]) rows rest
    else if c = '\n' ∨ c = '\r' then
      parseCsvAux false [] [] (pushRow rows (row ++ [field])) rest
    else
      parseCsvAux false (field ++ [c]) row rows rest

/-- The function `parseCsv` from the statement module. -/
def parseCsv (text : JStr) : List (List JStr) :=
  parseCsvAux false [] [] [] text

/-- The function `pickHeaderIndex`: the index of the first candidate present among the
lower-cased, trimmed headers (`-1` modelled as `none`). -/
def pickHeaderIndex (headers : List JStr) (candidates : List JStr) : Option ℕ :=
  let normalized := headers.map (fun h => jsTrim (lowerStr h))
  candidates.findSome? (fun c => normalized.findIdx? (fun h => h == c))

/-- Model of `parseInt(s, 10)`: skip leading whitespace, optional sign, then a
leading digit run; no digits means NaN (`none`). -/
def parseIntJS (s : JStr) : Option ℤ :=
  let t := s.dropWhile isJsWs
  let (neg, t2) : Bool × JStr :=
    match t with
    | '-' :: r => (true, r)
    | '+' :: r => (false, r)
    | _ => (false, t)
  let ds := t2.takeWhile Char.isDigit
  if ds.isEmpty then none
  else some (if neg then -(digitsToNat ds : ℤ) else (digitsToNat ds : ℤ))

/-- Model of `String(parseInt(g, 10)).padStart(2, '0')` for an all-digit group. -/
def pad2 (s : JStr) : JStr :=
  if s.length < 2 then List.replicate (2 - s.length) '0' ++ s else s

/-- Rendering of the interpolated `year` (a JS number: an integer, or NaN
when the fallback year did not parse). -/
def yearChars : Option ℤ → JStr
  | none => "NaN".toList
  | some y => jsIntToString y

/-- The groups of `/^(\d{1,2})[\/\-](\d{1,2})(?:[\/\-](\d{2,4}))?$/`.
Digit runs are maximal (digits and separators are disjoint, so regex
backtracking cannot shorten a run and succeed). -/
def parseMdy (v : JStr) : Option (JStr × JStr × Option JStr) :=
  let (g1, r1) := v.span Char.isDigit
  if g1.length < 1 ∨ 2 < g1.length then none
  else
    match r1 with
    | s :: r2 =>
      if s = '/' ∨ s = '-' then
        let (g2, r3) := r2.span Char.isDigit
        if g2.length < 1 ∨ 2 < g2.length then none
        else
          match r3 with
          | [] => some (g1, g2, none)
          | s2 :: r4 =>
            if s2 = '/' ∨ s2 = '-' then
              let (g3, r5) := r4.span Char.isDigit
              if 2 ≤ g3.length ∧ g3.length ≤ 4 ∧ r5.isEmpty then
                some (g1, g2, some g3)
              else none
            else none
      else none
    | [] => none

/-- The groups of `/^([A-Za-z]{3,9})\s+(\d{1,2})(?:\s+(\d{4}))?$/`
(letter/digit runs maximal for the same disjointness reason). -/
def parseMonthNameDate (v : JStr) : Option (JStr × JStr × Option JStr) :=
  let (name, r1) := v.span Char.isAlpha
  if name.length < 3 ∨ 9 < name.length then none
  else
    let (sp1, r2) := r1.span isJsWs
    if sp1.isEmpty then none
    else
      let (dg, r3) := r2.span Char.isDigit
      if dg.length < 1 ∨ 2 < dg.length then none
      else
        match r3 with
        | [] => some (name, dg, none)
        | _ =>
          let (sp2, r4) := r3.span isJsWs
          if sp2.isEmpty then none
          else
            let (yg, r5) := r4.span Char.isDigit
            if yg.length = 4 ∧ r5.isEmpty then some (name, dg, some yg)
            else none

def monthMap : List (JStr × ℕ) :=
  [("jan".toList, 1), ("january".toList, 1), ("feb".toList, 2),
   ("february".toList, 2), ("mar".toList, 3), ("march".toList, 3),
   ("apr".toList, 4), ("april".toList, 4), ("may".toList, 5),
   ("jun".toList, 6), ("june".toList, 6), ("jul".toList, 7),
   ("july".toList, 7), ("aug".toList, 8), ("august".toList, 8),
   ("sep".toList, 9), ("sept".toList, 9), ("september".toList, 9),
   ("oct".toList, 10), ("october".toList, 10), ("nov".toList, 11),
   ("november".toList, 11), ("dec".toList, 12), ("december".toList, 12)]

/-- The function `toIsoDate` from the statement module. -/
def toIsoDate (value : JStr) (fallbackYear : Option ℤ) : Option JStr :=
  let v := jsTrim value
  if v.isEmpty then none
  else if isIsoShape v then some v
  else
    match parseMdy v with
    | some (g1, g2, g3) =>
      let month := pad2 (jsNatToString (digitsToNat g1))
      let day := pad2 (jsNatToString (digitsToNat g2))
      let year : Option ℤ :=
        match g3 with
        | some g =>
          let y := digitsToNat g
          some (if y < 100 then (2000 + y : ℕ) else (y : ℕ))
        | none => fallbackYear
      some (yearChars year ++ '-' :: (month ++ '-' :: day))
    | none =>
      match parseMonthNameDate v with
      | some (name, dg, yg) =>
        match (monthMap.find? (fun p => p.1 == lowerStr name)).map (·.2) with
        | none => none
        | some monthNum =>
          let month := pad2 (jsNatToString monthNum)
          let day := pad2 (jsNatToString (digitsToNat dg))
          let year : Option ℤ :=
            match yg with
            | some g => some (digitsToNat g : ℕ)
            | none => fallbackYear
          some (yearChars year ++ '-' :: (month ++ '-' :: day))
      | none => none

/-- A raw record emitted by `parseTransactionsFromCsv`. -/
structure CsvRec where
  date : JStr
  merchant : JStr
  amount : ℚ
deriving DecidableEq

/-- Model of `String(cell).replace(/[$,]/g, '')`. -/
def stripMoney (s : JStr) : JStr :=
  s.filter (fun c => !(c = '$' ∨ c = ','))

/-- Model of `idx >= 0 ? (r[idx] ?? '') : ''`. -/
def cellAt (idx : Option ℕ) (r : List JStr) : JStr :=
  match idx with
  | some i => r.getD i []
  | none => []

/-- The amount computation of one CSV row: the amount column when
present and non-blank, else the debit/credit pair, else 0; a
non-finite result defaults to 0 (`$` and `,` stripped before numeric
coercion). -/
def csvAmount (amountIdx debitIdx creditIdx : Option ℕ) (r : List JStr) : ℚ :=
  let amountCell : Option JStr := amountIdx.bind (fun i => r.get? i)
  let amountAlt : JSNum :=
    if debitIdx.isSome ∨ creditIdx.isSome then
      let debit := match debitIdx with
        | some i => parseNumberJS (stripMoney (r.getD i []))
        | none => .val 0
      let credit := match creditIdx with
        | some i => parseNumberJS (stripMoney (r.getD i []))
        | none => .val 0
      .val (finiteOr0 debit - finiteOr0 credit)
    else .val 0
  let amount : JSNum :=
    match amountCell with
    | some cell =>
      if (jsTrim cell).isEmpty then amountAlt
      else parseNumberJS (stripMoney cell)
    | none => amountAlt
  finiteOr0 amount

/-- One iteration of the row loop of `parseTransactionsFromCsv`
(`continue` modelled as `none`; the amount block, which has no effect on
the two `continue` guards, is the factored `csvAmount`). -/
def parseCsvRow (dateIdx merchantIdx amountIdx debitIdx creditIdx : Option ℕ)
    (fallbackYear : Option ℤ) (targetMonth : JStr) (r : List JStr) :
    Option CsvRec :=
  match toIsoDate (cellAt dateIdx r) fallbackYear with
  | none => none
  | some iso =>
    if targetMonth.isPrefixOf iso then
      if (jsTrim (cellAt merchantIdx r)).isEmpty then none
      else some { date := iso, merchant := cellAt merchantIdx r,
                  amount := csvAmount amountIdx debitIdx creditIdx r }
    else none

def dateHeaderCandidates : List JStr :=
  ["date", "transaction date", "posted date", "trans date"].map String.toList

def merchantHeaderCandidates : List JStr :=
  ["merchant", "description", "name", "memo"].map String.toList

def amountHeaderCandidates : List JStr :=
  ["amount", "transaction amount", "amt"].map String.toList

/-- The function `parseTransactionsFromCsv` from the statement module. -/
def parseTransactionsFromCsv (csvText : JStr) (targetMonth : JStr) :
    List CsvRec :=
  match parseCsv csvText with
  | [] => []
  | headerRow :: dataRows =>
    let headers := headerRow.map jsTrim
    let dateIdx := pickHeaderIndex headers dateHeaderCandidates
    let merchantIdx := pickHeaderIndex headers merchantHeaderCandidates
    let amountIdx := pickHeaderIndex headers amountHeaderCandidates
    let debitIdx := pickHeaderIndex headers ["debit".toList]
    let creditIdx := pickHeaderIndex headers ["credit".toList]
    let fallbackYear := parseIntJS (targetMonth.takeWhile (fun c => c ≠ '-'))
    dataRows.filterMap
      (parseCsvRow dateIdx merchantIdx amountIdx debitIdx creditIdx
        fallbackYear targetMonth)

/-- The function `updateCategory` from the app layer, acting on the transaction
collection and the mapping store. -/
def updateCategory (transactions : List Transaction)
    (userMappings : List (JStr × JStr)) (id newCategory : JStr) :
    List Transaction × List (JStr × JStr) :=
  match transactions.find? (fun t => t.id == id) with
  | none => (transactions, userMappings)
  | some transaction =>
    (transactions.map
      (fun t => if t.id == id then { t with category := newCategory } else t),
     recordSet userMappings transaction.merchant newCategory)

/-- The raw paycheck fields read by the medicare computation of
`handleJsonImport` / `processOCRData` (`preTaxDeductions?.fsa` is the
optional-chained nested key). -/
structure RawPaycheck where
  employee_fsa_contribution : JSValue
  fsa_contribution : JSValue
  preTaxDeductions_fsa : JSValue
  medicare_amount : JSValue
  medicare : JSValue
deriving DecidableEq

/-- Model of `Number(data.employee_fsa_contribution || data.fsa_contribution ||
data.preTaxDeductions?.fsa) || 0`. -/
def fsaExtracted (d : RawPaycheck) : ℚ :=
  jsOr0 (jsToNumber
    (jsOr d.employee_fsa_contribution
      (jsOr d.fsa_contribution d.preTaxDeductions_fsa)))

/-- Model of `Number(data.medicare_amount || data.medicare) || 0`. -/
def medicareExtracted (d : RawPaycheck) : ℚ :=
  jsOr0 (jsToNumber (jsOr d.medicare_amount d.medicare))

/-- The `medicare` field computed during paycheck normalization:
`fsaAmount > 0 ? 0 : medicareAmount` (identical in `handleJsonImport`
and `processOCRData`). -/
def extractMedicare (d : RawPaycheck) : ℚ :=
  if 0 < fsaExtracted d then 0 else medicareExtracted d

/-- The pre-tax deduction sub-record of a persisted paycheck; `none`
models a legacy record missing the property (`hasOwnProperty` false).
`k401` stands for the source key `'401k'`. -/
structure PreTaxDeductions where
  k401 : Option ℚ
  employer401kMatch : Option ℚ
  hsa : Option ℚ
  employerHsaMatch : Option ℚ
  fsa : Option ℚ
  employerFsaMatch : Option ℚ
  healthInsurance : Option ℚ
  other : Option ℚ
deriving DecidableEq

/-- A persisted paycheck record as the migration effect sees it. -/
structure PaycheckRec where
  id : JStr
  payPeriod : JStr
  grossAmount : ℚ
  federalTax : ℚ
  stateTax : ℚ
  localTax : ℚ
  medicare : Option ℚ
  socialSecurity : ℚ
  preTaxDeductions : PreTaxDeductions
  garnishments : ℚ
  postTaxOther : ℚ
  netAmount : ℚ
  payDate : JStr
  source : JStr
deriving DecidableEq

/-- The `needsMigration` scan (`x > 0` on a possibly-missing JS field is
false for `undefined`, i.e. compares the 0 default). -/
def needsMigration (paychecks : List PaycheckRec) : Bool :=
  paychecks.any (fun p =>
    p.preTaxDeductions.hsa.isNone ||
    p.preTaxDeductions.employerHsaMatch.isNone ||
    p.preTaxDeductions.fsa.isNone ||
    p.preTaxDeductions.employerFsaMatch.isNone ||
    (decide (0 < p.preTaxDeductions.fsa.getD 0) &&
     decide (0 < (p.medicare.getD 0))))

/-- The per-record body of the migration map (`x || 0` on a number-or-
missing field is its value, or 0 when missing or already 0). -/
def migrateOne (p : PaycheckRec) : PaycheckRec :=
  let fsa := p.preTaxDeductions.fsa.getD 0
  let medicare := p.medicare.getD 0
  { p with
    medicare := some (if 0 < fsa then 0 else medicare)
    preTaxDeductions :=
      { k401 := some (p.preTaxDeductions.k401.getD 0)
        employer401kMatch := some (p.preTaxDeductions.employer401kMatch.getD 0)
        hsa := some (p.preTaxDeductions.hsa.getD 0)
        employerHsaMatch := some (p.preTaxDeductions.employerHsaMatch.getD 0)
        fsa := some (p.preTaxDeductions.fsa.getD 0)
        employerFsaMatch := some (p.preTaxDeductions.employerFsaMatch.getD 0)
        healthInsurance := some (p.preTaxDeductions.healthInsurance.getD 0)
        other := some (p.preTaxDeductions.other.getD 0) } }

/-- The migration effect from the paycheck calculator: if any record
needs migration, rewrite the whole collection, else leave it as is. -/
def migratePaychecks (paychecks : List PaycheckRec) : List PaycheckRec :=
  if needsMigration paychecks then paychecks.map migrateOne else paychecks

/-- A paycheck record conforms when every canonical deduction sub-field
(and `medicare`) is present and the FSA/Medicare exclusion holds. -/
abbrev conformsPaycheck (p : PaycheckRec) : Prop :=
  p.medicare.isSome = true ∧
  p.preTaxDeductions.k401.isSome = true ∧
  p.preTaxDeductions.employer401kMatch.isSome = true ∧
  p.preTaxDeductions.hsa.isSome = true ∧
  p.preTaxDeductions.employerHsaMatch.isSome = true ∧
  p.preTaxDeductions.fsa.isSome = true ∧
  p.preTaxDeductions.employerFsaMatch.isSome = true ∧
  p.preTaxDeductions.healthInsurance.isSome = true ∧
  p.preTaxDeductions.other.isSome = true ∧
  (0 < p.preTaxDeductions.fsa.getD 0 → p.medicare.getD 0 = 0)

/-! Concrete inputs used by the witness and counterexample theorems. -/

/-- A constant clock: two imports happening in the same millisecond. -/
def clock0 : ℕ → ℕ := fun _ => 0

def csvSample : JStr := "Date,Description,Amount\n02/03,Stuff,4.50".toList

def csvBlankMerchant : JStr :=
  "Date,Description,Amount\n01/15, ,4.50\n01/16,Cafe X,2".toList

def rawMissingMerchant : RawTransaction :=
  { merchant := .undef, amount := .num (.val 5),
    date := .str ("2026-01-01".toList), category := none }

/-- A malformed-but-string record: junk amount, junk date. -/
def rawMessy : RawTransaction :=
  { merchant := .str ("  Corner   Cafe ".toList), amount := .str ("abc".toList),
    date := .str ("not-a-date".toList), category := none }

def rawStarbucks : RawTransaction :=
  { merchant := .str ("Starbucks".toList), amount := .num (.val 4),
    date := .str ("2026-01-15".toList), category := none }

def rawShell : RawTransaction :=
  { merchant := .str ("Shell Gas".toList), amount := .num (.val 40),
    date := .str ("2026-01-16".toList), category := none }

/-- The spec's FSA/Medicare example
`{employee_fsa_contribution: 50, medicare_amount: 30}`. -/
def fsaPaycheck : RawPaycheck :=
  { employee_fsa_contribution := .num (.val 50), fsa_contribution := .undef,
    preTaxDeductions_fsa := .undef, medicare_amount := .num (.val 30),
    medicare := .undef }

/-- The spec's example `{medicare_amount: 30}` alone. -/
def medicareOnlyPaycheck : RawPaycheck :=
  { employee_fsa_contribution := .undef, fsa_contribution := .undef,
    preTaxDeductions_fsa := .undef, medicare_amount := .num (.val 30),
    medicare := .undef }

/-- A fully canonical paycheck satisfying the FSA/Medicare exclusion. -/
def paycheckConforming : PaycheckRec :=
  { id := "p1".toList, payPeriod := "Jan 1 - Jan 15".toList,
    grossAmount := 5000, federalTax := 500, stateTax := 100, localTax := 0,
    medicare := some 0, socialSecurity := 300,
    preTaxDeductions :=
      { k401 := some 200, employer401kMatch := some 100, hsa := some 0,
        employerHsaMatch := some 0, fsa := some 50, employerFsaMatch := some 0,
        healthInsurance := some 80, other := some 0 },
    garnishments := 0, postTaxOther := 0, netAmount := 3800,
    payDate := "2026-01-15".toList, source := "Workday".toList }

/-- A legacy paycheck missing HSA/FSA sub-fields. -/
def paycheckLegacy : PaycheckRec :=
  { id := "p2".toList, payPeriod := "Jan 16 - Jan 31".toList,
    grossAmount := 5000, federalTax := 500, stateTax := 100, localTax := 0,
    medicare := some 72, socialSecurity := 300,
    preTaxDeductions :=
      { k401 := some 200, employer401kMatch := none, hsa := none,
        employerHsaMatch := none, fsa := none, employerFsaMatch := none,
        healthInsurance := some 80, other := none },
    garnishments := 0, postTaxOther := 0, netAmount := 3748,
    payDate := "2026-01-31".toList, source := "ADP".toList }

def txStarbucks : Transaction :=
  { id := "t1".toList, date := .str ("2026-01-15".toList),
    merchant := "Starbucks".toList, amount := 4,
    category := "Eating Out".toList, originalCategory := none }

def txShell : Transaction :=
  { id := "t2".toList, date := .str ("2026-01-16".toList),
    merchant := "Shell".toList, amount := 40,
    category := "Transport & Fuel".toList, originalCategory := none }

/-- What `finalizeTransactions clock0 [rawStarbucks, rawShell] []`
produces. -/
def txOut1 : Transaction :=
  { id := "0-0".toList, date := .str ("2026-01-15".toList),
    merchant := "Starbucks".toList, amount := 4,
    category := "Eating Out".toList, originalCategory := none }

def txOut2 : Transaction :=
  { id := "0-1".toList, date := .str ("2026-01-16".toList),
    merchant := "Shell Gas".toList, amount := 40,
    category := "Transport & Fuel".toList, originalCategory := none }

/-! ## Theorems -/

/-- C1, counterexample: for the empty merchant with a negative amount the
engine returns `"Unknown"` (the empty-merchant rule fires before the
refund heuristic), so the claim's unrestricted quantification over
merchant strings fails. -/
theorem c1_counterexample :
    categorizeTransaction [] (.val (-25))
        [("Amazon".toList, "Shopping".toList)] = "Unknown".toList ∧
      "Unknown".toList ≠ "Payment/Credit".toList := by
  decide

/-- C1 (amended): whenever the whitespace-normalized merchant is
non-empty, `categorizeTransaction` returns `"Payment/Credit"` as soon as
the amount is negative or the lower-cased normalized merchant matches the
word-boundary refund pattern, regardless of the mapping table and the
keyword table. -/
theorem c1_theorem (m : JStr) (a : ℚ) (userMappings : List (JStr × JStr))
    (hne : normalizeMerchant m ≠ [])
    (h : a < 0 ∨ refundPatternTest (lowerStr (normalizeMerchant m)) = true) :
    categorizeTransaction m (.val a) userMappings = "Payment/Credit".toList := by
  have h1 : (normalizeMerchant m).isEmpty = false := by
    cases hn : normalizeMerchant m
    · exact absurd hn hne
    · rfl
  have h2 : (decide (a < 0) ||
      refundPatternTest (lowerStr (normalizeMerchant m))) = true := by
    rcases h with h | h
    · simp [h]
    · simp [h]
  unfold categorizeTransaction
  simp only [h1, Bool.false_eq_true, if_false, h2, if_true]

/-- C1, witness: `"Amazon Refund"` at −25.00 is `"Payment/Credit"` even
with a mapping for that exact merchant. -/
theorem c1_witness :
    categorizeTransaction ("Amazon Refund".toList) (.val (-25))
      [("Amazon Refund".toList, "Shopping".toList)] =
        "Payment/Credit".toList :=
  c1_theorem _ _ _ (by decide) (Or.inl (by norm_num))

/-- C5: a paycheck record whose extracted FSA-employee contribution is
positive normalizes to `medicare = 0`; a record with no FSA contribution
at all keeps the extracted medicare amount. -/
theorem c5_theorem (d : RawPaycheck) :
    (0 < fsaExtracted d → extractMedicare d = 0) ∧
    (d.employee_fsa_contribution = .undef → d.fsa_contribution = .undef →
      d.preTaxDeductions_fsa = .undef →
        extractMedicare d = medicareExtracted d) := by
  constructor
  · intro h
    unfold extractMedicare
    rw [if_pos h]
  · intro h1 h2 h3
    have hz : fsaExtracted d = 0 := by
      unfold fsaExtracted
      rw [h1, h2, h3]
      rfl
    unfold extractMedicare
    rw [hz, if_neg (lt_irrefl 0)]

/-- C5, witness: the spec's concrete pair —
`{employee_fsa_contribution: 50, medicare_amount: 30}` normalizes to
`medicare = 0` and `{medicare_amount: 30}` alone to `medicare = 30`. -/
theorem c5_witness :
    extractMedicare fsaPaycheck = 0 ∧
      extractMedicare medicareOnlyPaycheck = 30 :=
  ⟨(c5_theorem fsaPaycheck).1 (by decide),
   ((c5_theorem medicareOnlyPaycheck).2 rfl rfl rfl).trans (by decide)⟩

theorem migrateOne_id_of_conforms (p : PaycheckRec)
    (h : conformsPaycheck p) : migrateOne p = p := by
  unfold conformsPaycheck at h
  simp only [Option.isSome_iff_exists] at h
  obtain ⟨hm, hk, he4, hh, heh, hf, hef, hhi, hot, hguard⟩ := h
  obtain ⟨mv, hmv⟩ := hm
  obtain ⟨v1, h1⟩ := hk
  obtain ⟨v2, h2⟩ := he4
  obtain ⟨v3, h3⟩ := hh
  obtain ⟨v4, h4⟩ := heh
  obtain ⟨v5, h5⟩ := hf
  obtain ⟨v6, h6⟩ := hef
  obtain ⟨v7, h7⟩ := hhi
  obtain ⟨v8, h8⟩ := hot
  rcases p with ⟨id, pp, g, ft, st, lt, med, ss, pre, gar, po, na, pd, src⟩
  rcases pre with ⟨a1, a2, a3, a4, a5, a6, a7, a8⟩
  simp only at hmv h1 h2 h3 h4 h5 h6 h7 h8 hguard
  subst hmv h1 h2 h3 h4 h5 h6 h7 h8
  simp only [Option.getD_some] at hguard
  unfold migrateOne
  simp only [Option.getD_some, PaycheckRec.mk.injEq, PreTaxDeductions.mk.injEq,
    and_true, true_and]
  by_cases hpos : 0 < v5
  · rw [if_pos hpos, hguard hpos]
  · rw [if_neg hpos]

theorem needsMigration_after_map (ps : List PaycheckRec) :
    needsMigration (ps.map migrateOne) = false := by
  unfold needsMigration
  rw [List.any_map]
  rw [List.any_eq_false]
  intro p _
  unfold migrateOne
  by_cases hpos : 0 < p.preTaxDeductions.fsa.getD 0
  · simp [hpos]
  · simp [hpos]

/-- C6: the paycheck migration is idempotent, and a record that already
has every canonical deduction sub-field (including `medicare`) and
already satisfies the FSA/Medicare exclusion passes through unaltered at
its position, whatever the rest of the collection looks like. -/
theorem c6_theorem (ps : List PaycheckRec) :
    migratePaychecks (migratePaychecks ps) = migratePaychecks ps ∧
    (∀ (i : ℕ) (p : PaycheckRec), ps[i]? = some p → conformsPaycheck p →
      (migratePaychecks ps)[i]? = some p) := by
  constructor
  · unfold migratePaychecks
    by_cases h : needsMigration ps = true
    · simp only [h, if_true, needsMigration_after_map, Bool.false_eq_true,
        if_false]
    · simp only [Bool.not_eq_true] at h
      simp only [h, Bool.false_eq_true, if_false]
  · intro i p hip hconf
    unfold migratePaychecks
    by_cases h : needsMigration ps = true
    · simp only [h, if_true, List.getElem?_map, hip, Option.map_some',
        migrateOne_id_of_conforms p hconf]
    · simp only [Bool.not_eq_true] at h
      simp only [h, Bool.false_eq_true, if_false, hip]

/-- C6, witness: in a collection where a legacy record forces a
migration pass, the conforming record is returned unchanged. -/
theorem c6_witness :
    (migratePaychecks [paycheckConforming, paycheckLegacy])[0]? =
      some paycheckConforming :=
  (c6_theorem [paycheckConforming, paycheckLegacy]).2 0 paycheckConforming
    rfl (by decide)

theorem find?_mapOverride {k v k' : JStr} (hne : k' ≠ k)
    (l : List (JStr × JStr)) :
    (l.map (fun p => if p.1 == k then (k, v) else p)).find?
        (fun p => p.1 == k') =
      l.find? (fun p => p.1 == k') := by
  have hkk' : (k == k') = false := by
    simp only [beq_eq_false_iff_ne]
    exact fun h => hne h.symm
  induction l with
  | nil => rfl
  | cons hd tl ih =>
    simp only [List.map_cons]
    by_cases hh : hd.1 = k
    · have hb' : (hd.1 == k') = false := by rw [hh]; exact hkk'
      simp only [hh, beq_self_eq_true, if_true, List.find?_cons, hkk', hb', ih]
    · have hb : (hd.1 == k) = false := by simp [hh]
      simp only [hb, Bool.false_eq_true, if_false, List.find?_cons]
      cases hb2 : (hd.1 == k') with
      | true => simp only [hb2]
      | false => simp only [hb2, ih]

theorem find?_mapOverride_present {k v : JStr} (l : List (JStr × JStr))
    (hp : (l.find? (fun p => p.1 == k)).isSome = true) :
    (l.map (fun p => if p.1 == k then (k, v) else p)).find?
        (fun p => p.1 == k) = some (k, v) := by
  induction l with
  | nil => simp [List.find?] at hp
  | cons hd tl ih =>
    simp only [List.map_cons]
    by_cases hh : hd.1 = k
    · simp only [hh, beq_self_eq_true, if_true, List.find?_cons]
    · have hb : (hd.1 == k) = false := by simp [hh]
      have hp' : (tl.find? (fun p => p.1 == k)).isSome = true := by
        simp only [List.find?_cons, hb] at hp
        exact hp
      simp only [hb, Bool.false_eq_true, if_false, List.find?_cons, ih hp']

/-- The spread `{...prev, [k]: v}` observed through lookups: `k` now maps
to `v`, every other key is unchanged. -/
theorem recordGet_recordSet (m : List (JStr × JStr)) (k v k' : JStr) :
    recordGet (recordSet m k v) k' =
      if k' = k then some v else recordGet m k' := by
  unfold recordSet recordGet
  by_cases hp : (m.find? (fun p => p.1 == k)).isSome = true
  · rw [if_pos hp]
    by_cases hk : k' = k
    · subst hk
      rw [if_pos rfl, find?_mapOverride_present m hp]
      rfl
    · rw [if_neg hk, find?_mapOverride hk]
  · rw [if_neg hp]
    rw [List.find?_append]
    by_cases hk : k' = k
    · subst hk
      have hnone : m.find? (fun p => p.1 == k') = none := by
        cases hfind : m.find? (fun p => p.1 == k') with
        | none => rfl
        | some a => rw [hfind] at hp; simp at hp
      rw [hnone, if_pos rfl]
      simp [List.find?]
    · rw [if_neg hk]
      have happ : ([((k : JStr), v)].find? (fun p => p.1 == k')) = none := by
        simp only [List.find?_eq_none, List.mem_singleton, forall_eq,
          beq_iff_eq]
        exact fun h => hk h.symm
      rw [happ]
      simp

/-- C8: after `updateCategory id c` (when a transaction with that id
exists and ids are unique), the collection is unchanged at every position
whose record has a different id; the record with id `i` changes only its
`category` field; and the mapping table is the previous one with the
edited record's merchant now mapped to `c` and all other keys unchanged. -/
theorem c8_theorem (txs : List Transaction)
    (userMappings : List (JStr × JStr)) (i c : JStr) (tr : Transaction)
    (hfind : txs.find? (fun t => t.id == i) = some tr)
    (huniq : (txs.map (fun t => t.id)).Nodup) :
    (updateCategory txs userMappings i c).1.length = txs.length ∧
    (∀ (j : ℕ) (t : Transaction), txs[j]? = some t → t.id ≠ i →
      (updateCategory txs userMappings i c).1[j]? = some t) ∧
    (∀ (j : ℕ) (t : Transaction), txs[j]? = some t → t.id = i →
      t = tr ∧ (updateCategory txs userMappings i c).1[j]? =
        some { tr with category := c }) ∧
    (∀ k : JStr, recordGet (updateCategory txs userMappings i c).2 k =
      if k = tr.merchant then some c else recordGet userMappings k) := by
  have htr_mem : tr ∈ txs := List.mem_of_find?_eq_some hfind
  have htr_id : tr.id = i := by
    have := List.find?_some hfind
    simpa [beq_iff_eq] using this
  unfold updateCategory
  rw [hfind]
  refine ⟨by simp, ?_, ?_, ?_⟩
  · intro j t hjt hne
    simp only [List.getElem?_map, hjt, Option.map_some']
    have : (t.id == i) = false := by simp [beq_eq_false_iff_ne, hne]
    simp [this]
  · intro j t hjt hid
    have ht_mem : t ∈ txs := by
      obtain ⟨hlt, hje⟩ := List.getElem?_eq_some_iff.mp hjt
      exact hje ▸ List.getElem_mem hlt
    have hteq : t = tr :=
      List.inj_on_of_nodup_map huniq ht_mem htr_mem (by rw [hid, htr_id])
    subst hteq
    refine ⟨rfl, ?_⟩
    simp only [List.getElem?_map, hjt, Option.map_some']
    simp [hid]
  · intro k
    exact recordGet_recordSet userMappings tr.merchant c k

/-- C8, witness: recategorizing `t2` to `"Food & Groceries"` leaves the
other transaction in place and adds `Shell → Food & Groceries` to the
mapping store. -/
theorem c8_witness :
    (updateCategory [txStarbucks, txShell] [] ("t2".toList)
        ("Food & Groceries".toList)).1[0]? = some txStarbucks ∧
    recordGet (updateCategory [txStarbucks, txShell] [] ("t2".toList)
        ("Food & Groceries".toList)).2 ("Shell".toList) =
      some ("Food & Groceries".toList) := by
  have h := c8_theorem [txStarbucks, txShell] [] ("t2".toList)
    ("Food & Groceries".toList) txShell (by decide) (by decide)
  exact ⟨h.2.1 0 txStarbucks rfl (by decide),
    (h.2.2.2 ("Shell".toList)).trans (by decide)⟩

theorem finalizeAux_isOk (clock : ℕ → ℕ) (userMappings : List (JStr × JStr)) :
    ∀ (raws : List RawTransaction) (i : ℕ),
      (∀ r ∈ raws, r.merchant.isString = true) →
      ∃ l, finalizeAux clock userMappings raws i = .ok l := by
  intro raws
  induction raws with
  | nil => exact fun i _ => ⟨[], rfl⟩
  | cons t rest ih =>
    intro i h
    have ht : t.merchant.isString = true := h t (List.mem_cons_self t rest)
    obtain ⟨s, hs⟩ : ∃ s, t.merchant = .str s := by
      cases hm : t.merchant with
      | str s => exact ⟨s, rfl⟩
      | undef => rw [hm] at ht; simp [JSValue.isString] at ht
      | null => rw [hm] at ht; simp [JSValue.isString] at ht
      | num n => rw [hm] at ht; simp [JSValue.isString] at ht
    obtain ⟨l, hl⟩ := ih (i + 1) (fun r hr => h r (List.mem_cons_of_mem t hr))
    unfold finalizeAux
    rw [hs, hl]
    exact ⟨_, rfl⟩

/-- C3 (amended): `finalizeTransactions` returns normally on every list
of raw records whose `merchant` field is a string — whatever the
`amount` and `date` fields hold, malformed values are zero-defaulted or
dropped.  (A missing or non-string merchant, by contrast, throws; see the
counterexample.) -/
theorem c3_theorem (clock : ℕ → ℕ) (raws : List RawTransaction)
    (userMappings : List (JStr × JStr))
    (h : ∀ r ∈ raws, r.merchant.isString = true) :
    (finalizeTransactions clock raws userMappings).isOk = true := by
  obtain ⟨l, hl⟩ := finalizeAux_isOk clock userMappings raws 0 h
  unfold finalizeTransactions
  rw [hl]
  rfl

/-- C3, counterexample: a single record whose `merchant` is missing
(`undefined`) makes `finalizeTransactions` throw
(`merchant.replace` on `undefined`), so the claim's "returns normally
for every list of raw records" fails. -/
theorem c3_counterexample :
    finalizeTransactions clock0 [rawMissingMerchant] [] =
      .error "TypeError" := by
  decide

/-- C3, witness: a record with an unparseable amount and a malformed
date, next to a well-formed record, is handled without raising. -/
theorem c3_witness :
    (finalizeTransactions clock0 [rawMessy, rawStarbucks] []).isOk = true :=
  c3_theorem clock0 [rawMessy, rawStarbucks] [] (by decide)

theorem digitChar_ne_dash (k : ℕ) : digitChar k ≠ '-' := by
  rcases k with _|_|_|_|_|_|_|_|_|j
  iterate 9 decide
  exact (by decide : ('9' : Char) ≠ '-')

theorem digitVal_digitChar (k : ℕ) (h : k < 10) :
    digitVal (digitChar k) = k := by
  interval_cases k <;> rfl

theorem digitsToNat_append_last (l : JStr) (c : Char) :
    digitsToNat (l ++ [c]) = 10 * digitsToNat l + digitVal c := by
  unfold digitsToNat
  rw [List.foldl_append]
  rfl

theorem digitsToNat_jsNatToStringAux :
    ∀ (fuel n : ℕ), n < fuel →
      digitsToNat (jsNatToStringAux fuel n) = n := by
  intro fuel
  induction fuel with
  | zero => omega
  | succ fuel ih =>
    intro n h
    unfold jsNatToStringAux
    by_cases h10 : n < 10
    · rw [if_pos h10]
      have : digitsToNat [digitChar n] = digitVal (digitChar n) := by
        simp [digitsToNat]
      rw [this, digitVal_digitChar n h10]
    · rw [if_neg h10]
      have hdiv : n / 10 < fuel := by
        have h1 : n / 10 < n := Nat.div_lt_self (by omega) (by omega)
        omega
      rw [digitsToNat_append_last, ih _ hdiv,
        digitVal_digitChar _ (Nat.mod_lt _ (by omega))]
      omega

theorem jsNatToString_inj {m n : ℕ} (h : jsNatToString m = jsNatToString n) :
    m = n := by
  have := congrArg digitsToNat h
  unfold jsNatToString at this
  rwa [digitsToNat_jsNatToStringAux _ _ (Nat.lt_succ_self m),
    digitsToNat_jsNatToStringAux _ _ (Nat.lt_succ_self n)] at this

theorem jsNatToStringAux_ne_dash :
    ∀ (fuel n : ℕ), ∀ c ∈ jsNatToStringAux fuel n, c ≠ '-' := by
  intro fuel
  induction fuel with
  | zero => intro n c hc; simp [jsNatToStringAux] at hc
  | succ fuel ih =>
    intro n c hc
    unfold jsNatToStringAux at hc
    by_cases h10 : n < 10
    · rw [if_pos h10] at hc
      simp only [List.mem_singleton] at hc
      exact hc ▸ digitChar_ne_dash n
    · rw [if_neg h10] at hc
      rcases List.mem_append.mp hc with hc | hc
      · exact ih _ c hc
      · simp only [List.mem_singleton] at hc
        exact hc ▸ digitChar_ne_dash _

theorem jsNatToString_ne_dash (n : ℕ) : ∀ c ∈ jsNatToString n, c ≠ '-' :=
  jsNatToStringAux_ne_dash (n + 1) n

theorem append_dash_inj :
    ∀ (a c b d : JStr), (∀ x ∈ a, x ≠ '-') → (∀ x ∈ c, x ≠ '-') →
      a ++ '-' :: b = c ++ '-' :: d → a = c ∧ b = d := by
  intro a
  induction a with
  | nil =>
    intro c b d _ hc h
    cases c with
    | nil => simpa using h
    | cons e c' =>
      simp only [List.nil_append, List.cons_append, List.cons.injEq] at h
      exact absurd h.1.symm (hc e (List.mem_cons_self e c'))
  | cons x a' ih =>
    intro c b d ha hc h
    cases c with
    | nil =>
      simp only [List.cons_append, List.nil_append, List.cons.injEq] at h
      exact absurd h.1 (ha x (List.mem_cons_self x a'))
    | cons e c' =>
      simp only [List.cons_append, List.cons.injEq] at h
      obtain ⟨hx, ht⟩ := h
      obtain ⟨h1, h2⟩ := ih c' b d
        (fun y hy => ha y (List.mem_cons_of_mem x hy))
        (fun y hy => hc y (List.mem_cons_of_mem e hy)) ht
      exact ⟨by rw [hx, h1], h2⟩

theorem txId_inj_index {t t' i i' : ℕ} (h : txId t i = txId t' i') :
    i = i' := by
  unfold txId at h
  obtain ⟨-, h2⟩ := append_dash_inj _ _ _ _
    (jsNatToString_ne_dash t) (jsNatToString_ne_dash t') h
  exact jsNatToString_inj h2

theorem finalizeAux_ids (clock : ℕ → ℕ) (userMappings : List (JStr × JStr)) :
    ∀ (raws : List RawTransaction) (i : ℕ) (l : List Transaction),
      finalizeAux clock userMappings raws i = .ok l →
      (l.map (fun t => t.id)).Nodup ∧
      (∀ s ∈ l.map (fun t => t.id), ∃ j, i ≤ j ∧ s = txId (clock j) j) := by
  intro raws
  induction raws with
  | nil =>
    intro i l h
    unfold finalizeAux at h
    obtain rfl : ([] : List Transaction) = l := by
      injection h
    simp
  | cons t rest ih =>
    intro i l h
    unfold finalizeAux at h
    cases hm : t.merchant with
    | undef => rw [hm] at h; exact absurd h (by simp)
    | null => rw [hm] at h; exact absurd h (by simp)
    | num n => rw [hm] at h; exact absurd h (by simp)
    | str s =>
      rw [hm] at h
      cases haux : finalizeAux clock userMappings rest (i + 1) with
      | error e => rw [haux] at h; exact absurd h (by simp)
      | ok l' =>
        rw [haux] at h
        simp only [Except.ok.injEq] at h
        obtain ⟨hnd, hbound⟩ := ih (i + 1) l' haux
        subst h
        constructor
        · rw [List.map_cons, List.nodup_cons]
          refine ⟨?_, hnd⟩
          intro hmem
          obtain ⟨j, hj, hjid⟩ := hbound _ hmem
          have : i = j := txId_inj_index hjid
          omega
        · intro str hstr
          rw [List.map_cons] at hstr
          rcases List.mem_cons.mp hstr with hstr | hstr
          · exact ⟨i, le_refl i, hstr⟩
          · obtain ⟨j, hj, hjid⟩ := hbound _ hstr
            exact ⟨j, by omega, hjid⟩

/-- C7 (amended): within a single `finalizeTransactions` call the
assigned ids are pairwise distinct (the element index is part of the id,
whatever `Date.now()` returns at each element). -/
theorem c7_theorem (clock : ℕ → ℕ) (raws : List RawTransaction)
    (userMappings : List (JStr × JStr)) (l : List Transaction)
    (h : finalizeTransactions clock raws userMappings = .ok l) :
    (l.map (fun t => t.id)).Nodup := by
  unfold finalizeTransactions at h
  cases haux : finalizeAux clock userMappings raws 0 with
  | error e => rw [haux] at h; exact absurd h (by simp)
  | ok l0 =>
    rw [haux] at h
    simp only [Except.ok.injEq] at h
    obtain ⟨hnd, -⟩ := finalizeAux_ids clock userMappings raws 0 l0 haux
    subst h
    exact hnd.sublist (List.Sublist.map _ (List.filter_sublist l0))

/-- C7, counterexample: two separate `finalizeTransactions` calls landing
in the same `Date.now()` millisecond assign the same id `"0-0"` to two
distinct transactions, so ids are not unique across the pipeline. -/
theorem c7_counterexample :
    (finalizeTransactions clock0 [rawStarbucks] []).map
        (fun l => l.map (fun t => (t.id, t.merchant))) =
      .ok [("0-0".toList, "Starbucks".toList)] ∧
    (finalizeTransactions clock0 [rawShell] []).map
        (fun l => l.map (fun t => (t.id, t.merchant))) =
      .ok [("0-0".toList, "Shell Gas".toList)] := by
  decide

/-- C7, witness: one call over two records yields ids `0-0`, `0-1`,
which are distinct. -/
theorem c7_witness : (([txOut1, txOut2]).map (fun t => t.id)).Nodup :=
  c7_theorem clock0 [rawStarbucks, rawShell] [] [txOut1, txOut2] (by decide)

theorem parseCsvRow_some
    (dIdx mIdx aIdx dbIdx crIdx : Option ℕ) (fy : Option ℤ) (tm : JStr)
    (r : List JStr) (rec : CsvRec)
    (h : parseCsvRow dIdx mIdx aIdx dbIdx crIdx fy tm r = some rec) :
    tm.isPrefixOf rec.date = true ∧ (jsTrim rec.merchant).isEmpty = false := by
  unfold parseCsvRow at h
  split at h
  · exact absurd h (by simp)
  · rename_i iso hiso
    split at h
    · rename_i hpre
      split at h
      · exact absurd h (by simp)
      · rename_i hme
        obtain rfl :=
          Option.some.inj h
        simp only [Bool.not_eq_true] at hme
        exact ⟨hpre, hme⟩
    · exact absurd h (by simp)

/-- C4: every record emitted by `parseTransactionsFromCsv` has a resolved
date starting with the target month (rows with unresolvable or
out-of-month dates are discarded), and concretely a row resolving to
`2026-02-03` is dropped for target `2026-01` and kept for `2026-02`. -/
theorem c4_theorem :
    (∀ csvText targetMonth : JStr,
      (parseTransactionsFromCsv csvText targetMonth).all
        (fun rec => targetMonth.isPrefixOf rec.date) = true) ∧
    parseTransactionsFromCsv csvSample ("2026-01".toList) = [] ∧
    (parseTransactionsFromCsv csvSample ("2026-02".toList)).map
        (fun r => (r.date, r.merchant)) =
      [("2026-02-03".toList, "Stuff".toList)] := by
  refine ⟨?_, by decide, by decide⟩
  intro csvText targetMonth
  rw [List.all_eq_true]
  intro rec hmem
  unfold parseTransactionsFromCsv at hmem
  split at hmem
  · simp at hmem
  · obtain ⟨r, _, hrow⟩ := List.mem_filterMap.mp hmem
    exact (parseCsvRow_some _ _ _ _ _ _ _ _ _ hrow).1

/-- C10: every record emitted by `parseTransactionsFromCsv` has a
merchant with at least one non-whitespace character (rows with empty or
whitespace-only merchant cells are dropped even when date and amount are
fine); concretely only the `Cafe X` row of the two in-month rows
survives. -/
theorem c10_theorem :
    (∀ csvText targetMonth : JStr,
      (parseTransactionsFromCsv csvText targetMonth).all
        (fun rec => !(jsTrim rec.merchant).isEmpty) = true) ∧
    (parseTransactionsFromCsv csvBlankMerchant ("2026-01".toList)).map
        (fun r => r.merchant) = ["Cafe X".toList] := by
  refine ⟨?_, by decide⟩
  intro csvText targetMonth
  rw [List.all_eq_true]
  intro rec hmem
  unfold parseTransactionsFromCsv at hmem
  split at hmem
  · simp at hmem
  · obtain ⟨r, _, hrow⟩ := List.mem_filterMap.mp hmem
    have := (parseCsvRow_some _ _ _ _ _ _ _ _ _ hrow).2
    simp [this]

theorem parseCsvAux_step_quoted (field : JStr) (row : List JStr)
    (rows : List (List JStr)) (c : Char) (rest : JStr) (hc : c ≠ '"') :
    parseCsvAux true field row rows (c :: rest) =
      parseCsvAux true (field ++ [c]) row rows rest := by
  conv_lhs => rw [parseCsvAux.eq_def]
  split
  · rename_i heq
    exact List.noConfusion heq
  · rename_i heq
    exact absurd (List.cons.inj heq).1 hc
  · rename_i heq
    exact absurd (List.cons.inj heq).1 hc
  · rename_i heq
    obtain ⟨hceq, hrest⟩ := List.cons.inj heq
    subst hceq
    subst hrest
    rfl
  · rename_i heq
    obtain ⟨hceq, hrest⟩ := List.cons.inj heq
    subst hceq
    subst hrest
    rfl

theorem parseCsvAux_open_quote (field : JStr) (row : List JStr)
    (rows : List (List JStr)) (rest : JStr) :
    parseCsvAux false field row rows ('"' :: rest) =
      parseCsvAux true field row rows rest := by
  conv_lhs => rw [parseCsvAux.eq_def]
  split
  · rename_i heq
    exact List.noConfusion heq
  · rename_i heq
    obtain ⟨-, hrest⟩ := List.cons.inj heq
    subst hrest
    rfl
  · rename_i heq
    obtain ⟨-, hrest⟩ := List.cons.inj heq
    subst hrest
    rfl
  · rename_i heq
    exact absurd (List.cons.inj heq).1 (by decide)
  · rename_i heq
    obtain ⟨hceq, -⟩ := List.cons.inj heq
    subst hceq
    simp_all

theorem parseCsvAux_quoted_content :
    ∀ (l field : JStr) (row : List JStr) (rows : List (List JStr))
      (rest : JStr), (∀ x ∈ l, x ≠ '"') →
      parseCsvAux true field row rows (l ++ rest) =
        parseCsvAux true (field ++ l) row rows rest := by
  intro l
  induction l with
  | nil =>
    intro field row rows rest _
    simp
  | cons c l' ih =>
    intro field row rows rest h
    have hc : c ≠ '"' := h c (List.mem_cons_self c l')
    rw [List.cons_append, parseCsvAux_step_quoted field row rows c _ hc,
      ih _ _ _ _ (fun x hx => h x (List.mem_cons_of_mem c hx)),
      List.append_assoc]
    rfl

theorem forall_dropWhile_iff (p : Char → Bool) (l : JStr) :
    (∀ c ∈ l.dropWhile p, p c = true) ↔ (∀ c ∈ l, p c = true) := by
  induction l with
  | nil => simp
  | cons c l ih =>
    by_cases hp : p c = true
    · simp only [List.dropWhile_cons, hp, if_true, ih, List.mem_cons]
      constructor
      · intro hall x hx
        rcases hx with rfl | hx
        · exact hp
        · exact hall x hx
      · intro hall x hx
        exact hall x (Or.inr hx)
    · simp only [List.dropWhile_cons, hp, Bool.false_eq_true, if_false]

theorem jsTrim_eq_nil_iff (l : JStr) :
    jsTrim l = [] ↔ ∀ c ∈ l, isJsWs c = true := by
  unfold jsTrim
  rw [List.reverse_eq_nil_iff, List.dropWhile_eq_nil_iff]
  constructor
  · intro h c hc
    have h' : ∀ x ∈ List.dropWhile isJsWs l, isJsWs x = true := by
      intro x hx
      exact h x (List.mem_reverse.mpr hx)
    exact (forall_dropWhile_iff isJsWs l).mp h' c hc
  · intro h c hc
    exact h c ((List.dropWhile_sublist isJsWs).subset
      (List.mem_reverse.mp hc))

/-- C9: a `\n` or `\r` between an opening and a closing quote is field
content: the quoted text, newline included, comes back as a single field
of a single row. -/
theorem c9_theorem (f1 f2 : JStr) (c : Char)
    (h1 : ∀ x ∈ f1, x ≠ '"') (h2 : ∀ x ∈ f2, x ≠ '"')
    (hc : c = '\n' ∨ c = '\r')
    (hnb : (f1 ++ f2).any (fun x => !isJsWs x) = true) :
    parseCsv ('"' :: (f1 ++ c :: (f2 ++ ['"']))) = [[f1 ++ c :: f2]] := by
  unfold parseCsv
  rw [parseCsvAux_open_quote, parseCsvAux_quoted_content f1 _ _ _ _ h1,
    parseCsvAux_step_quoted _ _ _ c _
      (by rcases hc with rfl | rfl <;> decide),
    parseCsvAux_quoted_content f2 _ _ _ _ h2]
  have hclose : ∀ F : JStr, parseCsvAux true F [] [] ['"'] = pushRow [] [F] :=
    fun F => rfl
  rw [hclose]
  have hmem : ∀ x ∈ f1 ++ f2, x ∈ f1 ++ c :: f2 := by
    intro x hx
    rcases List.mem_append.mp hx with hx | hx
    · exact List.mem_append.mpr (Or.inl hx)
    · exact List.mem_append.mpr (Or.inr (List.mem_cons_of_mem c hx))
  have hne : ¬jsTrim (f1 ++ c :: f2) = [] := by
    intro hnil
    have hall := (jsTrim_eq_nil_iff _).mp hnil
    obtain ⟨x, hx, hxw⟩ := List.any_eq_true.mp hnb
    rw [Bool.not_eq_eq_eq_not, Bool.not_true] at hxw
    rw [hall x (hmem x hx)] at hxw
    exact Bool.noConfusion hxw
  unfold pushRow
  rw [if_pos (by simp [hne])]
  simp [List.append_assoc]

/-- C9, witness: the concrete quoted input (quote, `a`, newline, `b`,
quote) parses to one single-field row. -/
theorem c9_witness :
    parseCsv ('"' :: ("a".toList ++ '\n' :: ("b".toList ++ ['"']))) =
      [["a".toList ++ '\n' :: "b".toList]] :=
  c9_theorem ("a".toList) ("b".toList) '\n' (by decide) (by decide)
    (Or.inl rfl) (by decide)

theorem head?_dropWhile_false (p : Char → Bool) :
    ∀ (l : JStr) (c : Char), (l.dropWhile p).head? = some c → p c = false := by
  intro l
  induction l with
  | nil => intro c h; simp at h
  | cons x rest ih =>
    intro c h
    by_cases hx : p x = true
    · rw [List.dropWhile_cons, if_pos hx] at h
      exact ih c h
    · rw [List.dropWhile_cons, if_neg hx] at h
      obtain rfl : x = c := by simpa using h
      simpa using hx

theorem dropWhile_eq_self_of_head (p : Char → Bool) (l : JStr)
    (h : ∀ c, l.head? = some c → p c = false) : l.dropWhile p = l := by
  cases l with
  | nil => rfl
  | cons x rest =>
    rw [List.dropWhile_cons, if_neg]
    simp [h x rfl]

theorem getLast?_dropWhile_of_ne_nil (p : Char → Bool) :
    ∀ l : JStr, l.dropWhile p ≠ [] →
      (l.dropWhile p).getLast? = l.getLast? := by
  intro l
  induction l with
  | nil => intro h; simp at h
  | cons x rest ih =>
    intro h
    by_cases hx : p x = true
    · rw [List.dropWhile_cons, if_pos hx] at h ⊢
      rw [ih h]
      cases hr : rest with
      | nil => rw [hr] at h; simp at h
      | cons y r2 => simp
    · rw [List.dropWhile_cons, if_neg hx]

/-- The function `jsTrim` is idempotent. -/
theorem jsTrim_idem (l : JStr) : jsTrim (jsTrim l) = jsTrim l := by
  have hdw : ∀ m : JStr, (m.dropWhile isJsWs).dropWhile isJsWs =
      m.dropWhile isJsWs := fun m =>
    dropWhile_eq_self_of_head _ _ (fun c hc => head?_dropWhile_false _ m c hc)
  have h1 : (jsTrim l).dropWhile isJsWs = jsTrim l := by
    apply dropWhile_eq_self_of_head
    intro c hc
    unfold jsTrim at hc
    rw [List.head?_reverse] at hc
    by_cases hnil : (l.dropWhile isJsWs).reverse.dropWhile isJsWs = []
    · rw [hnil] at hc; simp at hc
    · rw [getLast?_dropWhile_of_ne_nil _ _ hnil, List.getLast?_reverse] at hc
      exact head?_dropWhile_false _ l c hc
  have h2 : (jsTrim l).reverse =
      (l.dropWhile isJsWs).reverse.dropWhile isJsWs := by
    unfold jsTrim
    rw [List.reverse_reverse]
  show (((jsTrim l).dropWhile isJsWs).reverse.dropWhile isJsWs).reverse =
    jsTrim l
  rw [h1, h2, hdw, ← h2, List.reverse_reverse]

/-- Every whitespace character the collapse emits is a plain space. -/
theorem collapseWsAux_mem_ws :
    ∀ (l : JStr) (prev : Bool) (c : Char), c ∈ collapseWsAux prev l →
      isJsWs c = true → c = ' ' := by
  intro l
  induction l with
  | nil => intro prev c hc; simp [collapseWsAux] at hc
  | cons x rest ih =>
    intro prev c hc hw
    unfold collapseWsAux at hc
    by_cases hx : isJsWs x = true
    · rw [if_pos hx] at hc
      cases prev with
      | true => exact ih true c hc hw
      | false =>
        rw [if_neg (by simp)] at hc
        rcases List.mem_cons.mp hc with rfl | hc
        · rfl
        · exact ih true c hc hw
    · rw [if_neg hx] at hc
      rcases List.mem_cons.mp hc with rfl | hc
      · exact absurd hw (by simp [hx])
      · exact ih false c hc hw

/-- After a whitespace run was just collapsed, the next emitted character
is not whitespace. -/
theorem collapseWsAux_head_true :
    ∀ (l : JStr) (c : Char), (collapseWsAux true l).head? = some c →
      isJsWs c = false := by
  intro l
  induction l with
  | nil => intro c h; simp [collapseWsAux] at h
  | cons x rest ih =>
    intro c h
    unfold collapseWsAux at h
    by_cases hx : isJsWs x = true
    · rw [if_pos hx] at h
      rw [if_pos rfl] at h
      exact ih c h
    · rw [if_neg hx] at h
      obtain rfl : x = c := by simpa using h
      simpa using hx

/-- The collapse never emits two adjacent whitespace characters. -/
theorem collapseWsAux_chain' :
    ∀ (l : JStr) (prev : Bool), (collapseWsAux prev l).Chain'
      (fun a b => isJsWs a = false ∨ isJsWs b = false) := by
  intro l
  induction l with
  | nil => intro prev; simp [collapseWsAux]
  | cons x rest ih =>
    intro prev
    unfold collapseWsAux
    by_cases hx : isJsWs x = true
    · rw [if_pos hx]
      cases prev with
      | true => exact ih true
      | false =>
        rw [if_neg (by simp)]
        rw [List.chain'_cons']
        refine ⟨?_, ih true⟩
        intro b hb
        exact Or.inr (collapseWsAux_head_true rest b hb)
    · rw [if_neg hx]
      rw [List.chain'_cons']
      exact ⟨fun b _ => Or.inl (by simpa using hx), ih false⟩

/-- A list whose whitespace is all `' '`, with no two adjacent
whitespace characters, is a fixed point of the collapse. -/
theorem collapseWsAux_id :
    ∀ l : JStr, (∀ c ∈ l, isJsWs c = true → c = ' ') →
      l.Chain' (fun a b => isJsWs a = false ∨ isJsWs b = false) →
      ∀ prev : Bool,
        (prev = true → ∀ c, l.head? = some c → isJsWs c = false) →
        collapseWsAux prev l = l := by
  intro l
  induction l with
  | nil => intro _ _ prev _; cases prev <;> rfl
  | cons x rest ih =>
    intro hsp hch prev hprev
    obtain ⟨hhead, htl⟩ := List.chain'_cons'.mp hch
    by_cases hx : isJsWs x = true
    · have hx' : x = ' ' := hsp x (List.mem_cons_self x rest) hx
      cases prev with
      | true =>
        have := hprev rfl x rfl
        rw [this] at hx
        exact absurd hx (by simp)
      | false =>
        unfold collapseWsAux
        rw [if_pos hx, if_neg (by simp)]
        have htail : collapseWsAux true rest = rest := by
          apply ih (fun c hc => hsp c (List.mem_cons_of_mem x hc)) htl
          intro _ c hc
          rcases hhead c hc with hfalse | hcs
          · rw [hx] at hfalse; exact absurd hfalse (by simp)
          · exact hcs
        rw [htail, hx']
    · unfold collapseWsAux
      rw [if_neg hx]
      have htail : collapseWsAux false rest = rest := by
        apply ih (fun c hc => hsp c (List.mem_cons_of_mem x hc)) htl
        intro hfalse
        exact absurd hfalse (by simp)
      rw [htail]

theorem jsTrim_subset (l : JStr) : ∀ c ∈ jsTrim l, c ∈ l := by
  intro c hc
  unfold jsTrim at hc
  rw [List.mem_reverse] at hc
  have hc2 := (List.dropWhile_suffix isJsWs).subset hc
  rw [List.mem_reverse] at hc2
  exact (List.dropWhile_suffix isJsWs).subset hc2

theorem chain'_jsTrim {R : Char → Char → Prop} (l : JStr)
    (h : l.Chain' R) (hsymm : ∀ a b, R a b → R b a) :
    (jsTrim l).Chain' R := by
  unfold jsTrim
  have h1 : (l.dropWhile isJsWs).Chain' R :=
    h.suffix (List.dropWhile_suffix isJsWs)
  have h2 : ((l.dropWhile isJsWs).reverse).Chain' R :=
    List.chain'_reverse.mpr (h1.imp (fun a b hab => hsymm a b hab))
  have h3 : (((l.dropWhile isJsWs).reverse).dropWhile isJsWs).Chain' R :=
    h2.suffix (List.dropWhile_suffix isJsWs)
  exact List.chain'_reverse.mpr (h3.imp (fun a b hab => hsymm a b hab))

/-- The function `normalizeMerchant` is idempotent. -/
theorem normalizeMerchant_idem (s : JStr) :
    normalizeMerchant (normalizeMerchant s) = normalizeMerchant s := by
  unfold normalizeMerchant
  have hid : collapseWsAux false (jsTrim (collapseWsAux false s)) =
      jsTrim (collapseWsAux false s) := by
    apply collapseWsAux_id
    · intro c hc hw
      exact collapseWsAux_mem_ws s false c (jsTrim_subset _ c hc) hw
    · exact chain'_jsTrim _ (collapseWsAux_chain' s false)
        (fun a b hab => hab.symm)
    · intro hfalse
      exact absurd hfalse (by simp)
  rw [hid, jsTrim_idem]

theorem findMappedCategory_exact (m : JStr)
    (userMappings : List (JStr × JStr)) (c : JStr)
    (hget : recordGet userMappings (normalizeMerchant m) = some c)
    (hc : c.isEmpty = false) :
    findMappedCategory (normalizeMerchant m) userMappings = some c := by
  unfold findMappedCategory
  simp only [normalizeMerchant_idem, hget, hc, Bool.false_eq_true, if_false]

/-- C2, counterexample: an exactly-matching mapping entry whose category
value is not in the fixed category set is ignored, so the claim's "no
further precondition on c" fails. -/
theorem c2_counterexample :
    categorizeTransaction ("Zelle Transfer".toList) (.val 10)
        [("Zelle Transfer".toList, "My Custom Category".toList)] =
      "Unknown".toList ∧
    "Unknown".toList ≠ "My Custom Category".toList := by
  decide

/-- C2 (amended): if the mapping table maps exactly the normalized
merchant key to `c`, `c` is a member of the fixed category set, the
normalized merchant is non-empty, and the refund rule is not triggered
(non-negative amount, no refund-pattern match), then
`categorizeTransaction` returns `c`. -/
theorem c2_theorem (m : JStr) (a : ℚ) (userMappings : List (JStr × JStr))
    (c : JStr) (hpos : 0 < a)
    (hrefund : refundPatternTest (lowerStr (normalizeMerchant m)) = false)
    (hne : normalizeMerchant m ≠ [])
    (hget : recordGet userMappings (normalizeMerchant m) = some c)
    (hmem : c ∈ DEFAULT_CATEGORIES) :
    categorizeTransaction m (.val a) userMappings = c := by
  have h1 : (normalizeMerchant m).isEmpty = false := by
    cases hn : normalizeMerchant m
    · exact absurd hn hne
    · rfl
  have hcne : c.isEmpty = false := by
    have hall : ∀ x ∈ DEFAULT_CATEGORIES, x.isEmpty = false := by decide
    exact hall c hmem
  have hlt : ¬(a < 0) := not_lt.mpr (le_of_lt hpos)
  unfold categorizeTransaction
  simp only [h1, Bool.false_eq_true, if_false]
  have hcond : (decide (a < 0) ||
      refundPatternTest (lowerStr (normalizeMerchant m))) = false := by
    simp [hlt, hrefund]
  simp only [hcond, Bool.false_eq_true, if_false]
  rw [findMappedCategory_exact m userMappings c hget hcne]
  have hcontains : DEFAULT_CATEGORIES.contains c = true :=
    List.elem_eq_true_of_mem hmem
  simp [hcne, hcontains, hmem]

/-- C2, witness: a messy-whitespace merchant hits its exact normalized
mapping entry. -/
theorem c2_witness :
    categorizeTransaction ("  Whole   Foods  Market ".toList) (.val 12)
        [("Whole Foods Market".toList, "Food & Groceries".toList)] =
      "Food & Groceries".toList :=
  c2_theorem _ 12 _ _ (by norm_num) (by decide) (by decide) (by decide)
    (by decide)
